import Mathlib

/-!
# Formal model of the bar-replay backtesting core

A shallow embedding of the backtesting framework: the portfolio ledger
(`src/lib/portfolio.py`), the simulated broker (`src/execution/simbroker.py`),
the data feed (`src/lib/data.py`), the default strategy trade journal and
report (`src/strategies/base.py`, `src/lib/metrics.py`), and the engine loop
(`src/backtest/engine.py`).

Conventions of the embedding:
* Python `float` values (prices, cash, fees) are modelled as `ℚ`; the return
  series, which goes through `np.log`, is modelled as `List ℝ` using
  `Real.log`.
* Python `int` quantities are modelled as `ℤ`; timestamps as `ℤ`.
* Python `dict[str, ...]` is modelled as an insertion-ordered association
  list `List (String × α)` with `dictGet`/`dictSet` below.
* The engine is instrumented with an event trace recording, in program
  order, the observable calls it makes (price recording, strategy hooks,
  broker execution, ledger updates); strategy hooks are `Except`-valued so
  that a hook that raises aborts the run, as in the source.
-/

namespace Backtest

/-- Model of Python `d.get(k, default)` on a `dict` represented as an
insertion-ordered association list. -/
def dictGet {α : Type} (d : List (String × α)) (k : String) (dflt : α) : α :=
  match d with
  | [] => dflt
  | (k', v) :: t => if k' = k then v else dictGet t k dflt

/-- Model of Python `d[k] = v`: overwrite the value at an existing key,
otherwise append the new binding at the end (dicts preserve insertion order). -/
def dictSet {α : Type} (d : List (String × α)) (k : String) (v : α) : List (String × α) :=
  match d with
  | [] => [(k, v)]
  | (k', v') :: t => if k' = k then (k, v) :: t else (k', v') :: dictSet t k v

/-! ## Core typed primitives (`src/lib/types.py`) -/

/-- `OrderSide` enum: `BUY = 1`, `SELL = -1`. -/
inductive OrderSide where
  | BUY
  | SELL
deriving DecidableEq, Repr

/-- One period's bar for one instrument. The `open` field is called `open_`
because `open` is a Lean keyword. -/
structure Bar where
  timestamp : ℤ
  symbol : String
  open_ : ℚ
  high : ℚ
  low : ℚ
  close : ℚ
deriving DecidableEq, Repr

/-- An order intent (the only order class in the source is MARKET, so the
`type` field is omitted from the model). -/
structure Order where
  symbol : String
  side : OrderSide
  quantity : ℤ
deriving DecidableEq, Repr

/-- The realized outcome of executing one order. -/
structure Fill where
  symbol : String
  side : OrderSide
  quantity : ℤ
  price : ℚ
  timestamp : ℤ
  fee : ℚ
deriving DecidableEq, Repr

/-! ## Portfolio ledger (`src/lib/portfolio.py`) -/

/-- The ledger: cash, positions dict, equity curve and log-return curve. -/
structure Portfolio where
  cash : ℚ
  positions : List (String × ℤ)
  equity_curve : List ℚ
  returns : List ℝ

/-- A fresh `Portfolio(cash=c)` as built by the dataclass constructor. -/
def initPortfolio (cash : ℚ) : Portfolio :=
  { cash := cash, positions := [], equity_curve := [], returns := [] }

/-- The equity computed by `update_mark_to_market`:
`cash + sum(qty * prices.get(sym, 0.0) for sym, qty in positions.items())`. -/
def Portfolio.equityAt (p : Portfolio) (prices : List (String × ℚ)) : ℚ :=
  p.cash + (p.positions.map (fun e => (e.2 : ℚ) * dictGet prices e.1 0)).sum

/-- `Portfolio.update_mark_to_market(prices)`: append the marked equity to the
equity curve and append `0.0 if prev == 0 else log(equity / prev)` to the
return curve, where `prev` is the last equity (or the new equity itself on the
first mark). -/
noncomputable def Portfolio.update_mark_to_market (p : Portfolio)
    (prices : List (String × ℚ)) : Portfolio :=
  let equity := p.equityAt prices
  let prev : ℚ :=
    match p.equity_curve.getLast? with
    | some x => x
    | none => equity
  { p with
    equity_curve := p.equity_curve ++ [equity]
    returns := p.returns ++
      [if prev = 0 then 0 else Real.log ((equity : ℝ) / (prev : ℝ))] }

/-- `Portfolio.apply_fill(symbol, quantity_delta, price, fee)`:
`cash -= quantity_delta * price + fee`;
`positions[symbol] = positions.get(symbol, 0) + quantity_delta`. -/
def Portfolio.apply_fill (p : Portfolio) (symbol : String) (quantity_delta : ℤ)
    (price : ℚ) (fee : ℚ) : Portfolio :=
  { p with
    cash := p.cash - ((quantity_delta : ℚ) * price + fee)
    positions := dictSet p.positions symbol (dictGet p.positions symbol 0 + quantity_delta) }

/-! ## Simulated broker (`src/execution/simbroker.py`) -/

/-- Broker configuration: flat commission per order and one-way slippage in
basis points. -/
structure SimBrokerConfig where
  commission_per_order : ℚ
  slippage_bps : ℚ
deriving DecidableEq, Repr

/-- `SimBroker.execute(order, last_price, timestamp)`: slippage worsens the
price for the order's side; the fee is the flat commission; the fill carries
the order's full quantity. -/
def SimBroker.execute (cfg : SimBrokerConfig) (order : Order) (last_price : ℚ)
    (timestamp : ℤ) : Fill :=
  let slip := last_price * (cfg.slippage_bps / 10000)
  let price := if order.side = OrderSide.BUY then last_price + slip else last_price - slip
  { symbol := order.symbol
    side := order.side
    quantity := order.quantity
    price := price
    timestamp := timestamp
    fee := cfg.commission_per_order }

/-! ## Default strategy trade journal (`src/strategies/base.py`) -/

/-- An open FIFO lot `{"qty": ..., "price": ..., "ts": ...}`. -/
structure Lot where
  qty : ℤ
  price : ℚ
  ts : ℤ
deriving DecidableEq, Repr

/-- A completed (full or partial) round trip appended to `trade_log`. -/
structure TradeRecord where
  symbol : String
  entry_ts : ℤ
  exit_ts : ℤ
  entry_price : ℚ
  exit_price : ℚ
  qty : ℤ
  pnl : ℚ
  ret : ℚ
  holding_days : ℤ
deriving DecidableEq, Repr

/-- One iteration body of the SELL matching loop in `Strategy.on_fill`,
iterated on explicit fuel (the Python `while qty_to_close > 0 and lots:` loop
runs at most `lots.length + 1` iterations: each iteration either pops the
head lot or zeroes the remaining quantity, see `sellLoop_nonpos`).
Each iteration takes `min(qty_to_close, lot.qty)` from the oldest lot, appends
one `TradeRecord`, pops the lot if it reaches zero, and repeats. -/
def sellLoop (symbol : String) (fill_price : ℚ) (ts : ℤ) :
    ℕ → ℤ → List Lot → List TradeRecord → List Lot × List TradeRecord
  | 0, _, lots, acc => (lots, acc)
  | fuel + 1, qty_to_close, lots, acc =>
    if 0 < qty_to_close then
      match lots with
      | [] => ([], acc)
      | lot :: rest =>
        let take := min qty_to_close lot.qty
        let record : TradeRecord :=
          { symbol := symbol
            entry_ts := lot.ts
            exit_ts := ts
            entry_price := lot.price
            exit_price := fill_price
            qty := take
            pnl := (fill_price - lot.price) * (take : ℚ)
            ret := fill_price / lot.price - 1
            holding_days := ts - lot.ts }
        if lot.qty - take = 0 then
          sellLoop symbol fill_price ts fuel (qty_to_close - take) rest (acc ++ [record])
        else
          sellLoop symbol fill_price ts fuel (qty_to_close - take)
            ({ lot with qty := lot.qty - take } :: rest) (acc ++ [record])
    else (lots, acc)

/-- The SELL branch of `Strategy.on_fill`, with enough fuel to run the loop to
completion (each iteration either pops the head lot or zeroes the remaining
quantity, so `lots.length + 1` iterations always suffice). -/
def sellFIFO (symbol : String) (fill_price : ℚ) (ts : ℤ) (quantity : ℤ)
    (lots : List Lot) (acc : List TradeRecord) : List Lot × List TradeRecord :=
  sellLoop symbol fill_price ts (lots.length + 1) quantity lots acc

/-! ## Portfolio analytics (`src/lib/metrics.py`)

The metric functions are pure consumers of the return series. They are
modelled over `List ℝ`; IEEE special values have no counterpart in `ℝ`, so
`np.nan` / `np.inf` results are modelled by the junk constants below (no claim
depends on their value), and `ensure_series`'s NaN-dropping is the identity on
a NaN-free list. -/

namespace M

/-- Stand-in for IEEE `nan` in the `ℝ` embedding (junk value, never relied on). -/
def npNaN : ℝ := 0

/-- Stand-in for IEEE `inf` in the `ℝ` embedding (junk value, never relied on). -/
def npInf : ℝ := 0

/-- `ensure_series`: `pd.Series(returns).dropna()`; the identity on a list of
real numbers (which has no NaNs to drop). -/
def ensure_series (returns : List ℝ) : List ℝ := returns

/-- `pd.Series.mean()` (junk `0` on the empty list, where pandas gives NaN). -/
noncomputable def seriesMean (l : List ℝ) : ℝ := l.sum / l.length

/-- `pd.Series.std()` with its default `ddof=1`. -/
noncomputable def seriesStd (l : List ℝ) : ℝ :=
  Real.sqrt ((l.map (fun x => (x - seriesMean l) ^ 2)).sum / ((l.length : ℝ) - 1))

/-- `sharpe(returns, risk_free_annual, periods_per_year, log_returns, annualize)`. -/
noncomputable def sharpe (returns : List ℝ) (risk_free_annual : ℝ)
    (periods_per_year : ℝ) (log_returns : Bool) (annualize : Bool) : ℝ :=
  let r := ensure_series returns
  let rf_per := if log_returns then Real.log (1 + risk_free_annual) / periods_per_year
    else risk_free_annual / periods_per_year
  let excess := r.map (fun x => x - rf_per)
  let daily := seriesMean excess / seriesStd excess
  if annualize then Real.sqrt periods_per_year * daily else daily

/-- `sortino(returns, target, periods_per_year, annualize)`. -/
noncomputable def sortino (returns : List ℝ) (target : ℝ) (periods_per_year : ℝ)
    (annualize : Bool) : ℝ :=
  let r := ensure_series returns
  let downside := r.map (fun x => min (x - target) 0)
  let downside_dev := Real.sqrt (seriesMean (downside.map (fun x => x ^ 2)))
  if downside_dev = 0 then npNaN
  else
    let ratio := (seriesMean r - target) / downside_dev
    if annualize then Real.sqrt periods_per_year * ratio else ratio

/-- `omega(returns, threshold)`. -/
noncomputable def omega (returns : List ℝ) (threshold : ℝ) : ℝ :=
  let r := ensure_series returns
  let gains := (r.map (fun x => max (x - threshold) 0)).sum
  let losses := (r.map (fun x => max (threshold - x) 0)).sum
  if losses = 0 then npInf else gains / losses

/-- `np.exp(r).cumprod()`: running products of the exponentials. -/
noncomputable def equityCurveOf (returns : List ℝ) : List ℝ :=
  (((ensure_series returns).map Real.exp).scanl (· * ·) 1).tail

/-- Running maximum (`pd.Series.cummax()`). -/
def seriesCummax (l : List ℝ) : List ℝ :=
  match l with
  | [] => []
  | h :: t => t.scanl max h

/-- `pd.Series.min()` (junk NaN stand-in on the empty series). -/
noncomputable def seriesMin (l : List ℝ) : ℝ :=
  match l with
  | [] => npNaN
  | h :: t => t.foldl min h

/-- `max_drawdown(returns)`: minimum of `eq / eq.cummax() - 1`. -/
noncomputable def max_drawdown (returns : List ℝ) : ℝ :=
  let eq := equityCurveOf returns
  seriesMin (List.zipWith (fun e m => e / m - 1) eq (seriesCummax eq))

/-- `cagr(returns, periods_per_year)`. -/
noncomputable def cagr (returns : List ℝ) (periods_per_year : ℝ) : ℝ :=
  let eq := equityCurveOf returns
  if eq.length ≤ 1 then npNaN
  else
    let years := (eq.length : ℝ) / periods_per_year
    Real.rpow (eq.getLastD 0) (1 / years) - 1

/-- `calmar(returns, periods_per_year)`. -/
noncomputable def calmar (returns : List ℝ) (periods_per_year : ℝ) : ℝ :=
  let c := cagr returns periods_per_year
  let mdd := |max_drawdown returns|
  if mdd = 0 then npNaN else c / mdd

end M

/-- The summary dict computed by the default `Strategy.finalize`. -/
structure Summary where
  num_trades : ℕ
  win_rate : ℚ
  avg_win : ℚ
  avg_loss : ℚ
  avg_holding_days : ℚ
deriving DecidableEq, Repr

/-- The metrics dict computed by the default `Strategy.finalize`. -/
structure MetricsRec where
  sharpe : ℝ
  sortino : ℝ
  omega : ℝ
  cagr : ℝ
  calmar : ℝ
  max_drawdown : ℝ

/-- Strategy-side state owned by the default `Strategy` base class:
`_open_lots` (dict symbol → list of lots), `trade_log`, and the report fields
filled in by `finalize` (`none` models the initial empty dicts). -/
structure StratState where
  open_lots : List (String × List Lot)
  trade_log : List TradeRecord
  summary : Option Summary
  strat_metrics : Option MetricsRec

/-- The fresh strategy state built by `Strategy.__init__`. -/
def initStratState : StratState :=
  { open_lots := [], trade_log := [], summary := none, strat_metrics := none }

/-- Default `Strategy.on_fill(fill, portfolio)`: on a BUY, append a new lot for
the fill's symbol; on a SELL, consume the oldest lots first via the matching
loop, appending one trade record per (partial or full) lot closure. The
`portfolio` argument is unused by the source implementation. -/
def Strategy.on_fill (f : Fill) (_portfolio : Portfolio) (s : StratState) : StratState :=
  let lots := dictGet s.open_lots f.symbol []
  if f.side = OrderSide.BUY then
    let newLots := lots ++ [{ qty := f.quantity, price := f.price, ts := f.timestamp }]
    { s with open_lots := dictSet s.open_lots f.symbol newLots }
  else
    let res := sellFIFO f.symbol f.price f.timestamp f.quantity lots s.trade_log
    { s with open_lots := dictSet s.open_lots f.symbol res.1, trade_log := res.2 }

/-- `np.mean` over the rational projections used in the summary. -/
def ratMean (l : List ℚ) : ℚ := l.sum / l.length

/-- Default `Strategy.finalize(portfolio)`: aggregate the trade log into the
summary and compute the portfolio-level metrics from the ledger's return
series (the `replace([inf, -inf], nan).dropna()` step is the identity in the
`ℝ` embedding). -/
noncomputable def Strategy.finalize (p : Portfolio) (s : StratState) : StratState :=
  let trades := s.trade_log
  let num_trades := trades.length
  let wins := trades.filter (fun t => 0 < t.pnl)
  let losses := trades.filter (fun t => t.pnl < 0)
  let summary : Summary :=
    { num_trades := num_trades
      win_rate := if num_trades = 0 then 0 else (wins.length : ℚ) / (num_trades : ℚ)
      avg_win := if wins = [] then 0 else ratMean (wins.map (·.pnl))
      avg_loss := if losses = [] then 0 else ratMean (losses.map (·.pnl))
      avg_holding_days := if trades = [] then 0
        else ratMean (trades.map (fun t => (t.holding_days : ℚ))) }
  let r := p.returns
  let mets : MetricsRec :=
    { sharpe := M.sharpe r 0 252 true true
      sortino := M.sortino r 0 252 true
      omega := M.omega r 0
      cagr := M.cagr r 252
      calmar := M.calmar r 252
      max_drawdown := M.max_drawdown r }
  { s with summary := some summary, strat_metrics := some mets }

/-! ## Data feed (`src/lib/data.py`) -/

/-- One row of the long-form history table
`(datetime, symbol, open, high, low, close)`. -/
structure Row where
  datetime : ℤ
  symbol : String
  open_ : ℚ
  high : ℚ
  low : ℚ
  close : ℚ
deriving DecidableEq, Repr

/-- The sort key order used by `DataFeed.__init__`:
`df.sort_values(["symbol", "datetime"])` — symbol first, then datetime. -/
def rowLe (r₁ r₂ : Row) : Prop :=
  r₁.symbol < r₂.symbol ∨ (r₁.symbol = r₂.symbol ∧ r₁.datetime ≤ r₂.datetime)

instance : DecidableRel rowLe := fun a b =>
  decidable_of_iff
    (a.symbol.toList < b.symbol.toList ∨ (a.symbol = b.symbol ∧ a.datetime ≤ b.datetime))
    (by rw [rowLe, String.lt_iff_toList_lt])

instance : IsTotal Row rowLe := by
  constructor
  intro a b
  rcases lt_trichotomy a.symbol b.symbol with h | h | h
  · exact Or.inl (Or.inl h)
  · rcases le_total a.datetime b.datetime with h' | h'
    · exact Or.inl (Or.inr ⟨h, h'⟩)
    · exact Or.inr (Or.inr ⟨h.symm, h'⟩)
  · exact Or.inr (Or.inl h)

instance : IsTrans Row rowLe := by
  constructor
  intro a b c hab hbc
  rcases hab with h₁ | ⟨h₁, h₁'⟩
  · rcases hbc with h₂ | ⟨h₂, _⟩
    · exact Or.inl (lt_trans h₁ h₂)
    · exact Or.inl (h₂ ▸ h₁)
  · rcases hbc with h₂ | ⟨h₂, h₂'⟩
    · exact Or.inl (h₁ ▸ h₂)
    · exact Or.inr ⟨h₁.trans h₂, le_trans h₁' h₂'⟩

/-- `DataFeed.__init__` normalization step on a preloaded table:
`self.df = data.sort_values(["symbol", "datetime"]).reset_index(drop=True)`. -/
def sortRows (data : List Row) : List Row :=
  List.insertionSort rowLe data

/-- `DataFeed.iter_bars()`: one `Bar` per row of `self.df`, in row order. -/
def iter_bars (df : List Row) : List Bar :=
  df.map (fun r =>
    { timestamp := r.datetime, symbol := r.symbol, open_ := r.open_,
      high := r.high, low := r.low, close := r.close })

/-- `DataFeed.history()`: the full table `self.df` (returned as a copy). -/
def history (df : List Row) : List Row := df

/-! ## Backtest engine (`src/backtest/engine.py`)

The engine is instrumented with an event trace: one event per observable call
it makes, in program order. Strategy hooks are `Except`-valued; a hook that
raises aborts the whole run with its error, as in the source (the engine
catches nothing). -/

/-- The result object built at the end of `Backtester.run`. -/
structure BacktestResult where
  equity : List ℚ
  returns : List ℝ
  trades : ℕ

/-- Observable engine actions, in program order. -/
inductive Event where
  | setPrice (symbol : String) (price : ℚ)
  | onBarCall (bar : Bar) (hist : List Row)
  | execCall (order : Order) (last_price : ℚ)
  | applyFillCall (symbol : String) (delta : ℤ) (price : ℚ) (fee : ℚ)
  | onFillCall (fill : Fill)
  | markCall (prices : List (String × ℚ))
deriving DecidableEq

/-- Engine-loop state: the portfolio, the engine-local `last_prices` dict and
fill counter `trades`, the strategy's own state, and the event trace. -/
structure EngSt (σ : Type) where
  portfolio : Portfolio
  lastPrices : List (String × ℚ)
  trades : ℕ
  strat : σ
  events : List Event

/-- The body of `for order in orders:` — execute the order at the current
bar's close, apply the fill to the portfolio (delta `+quantity` for BUY,
`-quantity` for SELL), notify `strategy.on_fill` (which may raise), and
increment the fill counter. -/
def processOrder {σ ε : Type} (cfg : SimBrokerConfig)
    (onFill : Fill → Portfolio → σ → Except ε σ) (bar : Bar)
    (st : EngSt σ) (o : Order) : Except ε (EngSt σ) :=
  let fill := SimBroker.execute cfg o bar.close bar.timestamp
  let qty_delta := if fill.side = OrderSide.BUY then fill.quantity else -fill.quantity
  let p' := st.portfolio.apply_fill fill.symbol qty_delta fill.price fill.fee
  match onFill fill p' st.strat with
  | Except.error e => Except.error e
  | Except.ok s' =>
    Except.ok
      { st with
        portfolio := p'
        strat := s'
        trades := st.trades + 1
        events := st.events ++
          [Event.execCall o bar.close,
           Event.applyFillCall fill.symbol qty_delta fill.price fill.fee,
           Event.onFillCall fill] }

/-- The body of `for bar in self.data.iter_bars():` — record the bar's close
in `last_prices`, ask the strategy for orders, process each order in the
order returned, then mark the portfolio to market once with the full
`last_prices` dict. -/
noncomputable def processBar {σ ε : Type} (cfg : SimBrokerConfig)
    (onBar : Bar → List Row → Portfolio → σ → Except ε (List Order × σ))
    (onFill : Fill → Portfolio → σ → Except ε σ) (hist : List Row)
    (st : EngSt σ) (bar : Bar) : Except ε (EngSt σ) :=
  let st₁ : EngSt σ :=
    { st with
      lastPrices := dictSet st.lastPrices bar.symbol bar.close
      events := st.events ++ [Event.setPrice bar.symbol bar.close] }
  match onBar bar hist st₁.portfolio st₁.strat with
  | Except.error e => Except.error e
  | Except.ok (orders, s₁) =>
    let st₂ : EngSt σ :=
      { st₁ with strat := s₁, events := st₁.events ++ [Event.onBarCall bar hist] }
    match List.foldlM (processOrder cfg onFill bar) st₂ orders with
    | Except.error e => Except.error e
    | Except.ok st₃ =>
      Except.ok
        { st₃ with
          portfolio := st₃.portfolio.update_mark_to_market st₃.lastPrices
          events := st₃.events ++ [Event.markCall st₃.lastPrices] }

/-- The engine loop of `Backtester.run` up to (and excluding) `finalize`:
build the feed table, take the full-history snapshot, call
`strategy.prepare`, then fold the per-bar step over `iter_bars()`. -/
noncomputable def runSt {σ ε : Type} (cfg : SimBrokerConfig)
    (prepare : List Row → σ → Except ε σ)
    (onBar : Bar → List Row → Portfolio → σ → Except ε (List Order × σ))
    (onFill : Fill → Portfolio → σ → Except ε σ)
    (data : List Row) (p₀ : Portfolio) (s₀ : σ) : Except ε (EngSt σ) :=
  let df := sortRows data
  let hist := history df
  match prepare df s₀ with
  | Except.error e => Except.error e
  | Except.ok s₁ =>
    List.foldlM (processBar cfg onBar onFill hist)
      { portfolio := p₀, lastPrices := [], trades := 0, strat := s₁, events := [] }
      (iter_bars df)

/-- `Backtester.run()`: run the loop, let the strategy finalize, and package
the ledger's equity/return series and the fill counter. -/
noncomputable def run {σ ε : Type} (cfg : SimBrokerConfig)
    (prepare : List Row → σ → Except ε σ)
    (onBar : Bar → List Row → Portfolio → σ → Except ε (List Order × σ))
    (onFill : Fill → Portfolio → σ → Except ε σ)
    (fin : Portfolio → σ → Except ε σ)
    (data : List Row) (p₀ : Portfolio) (s₀ : σ) : Except ε BacktestResult :=
  match runSt cfg prepare onBar onFill data p₀ s₀ with
  | Except.error e => Except.error e
  | Except.ok st =>
    match fin st.portfolio st.strat with
    | Except.error e => Except.error e
    | Except.ok _ =>
      Except.ok
        { equity := st.portfolio.equity_curve
          returns := st.portfolio.returns
          trades := st.trades }

/-- Lift a non-raising `on_bar` hook into the `Except`-valued interface. -/
def liftOnBar {σ ε : Type} (f : Bar → List Row → Portfolio → σ → List Order × σ) :
    Bar → List Row → Portfolio → σ → Except ε (List Order × σ) :=
  fun b h p s => Except.ok (f b h p s)

/-- Lift a non-raising `on_fill` hook into the `Except`-valued interface. -/
def liftOnFill {σ ε : Type} (g : Fill → Portfolio → σ → σ) :
    Fill → Portfolio → σ → Except ε σ :=
  fun f p s => Except.ok (g f p s)

/-- Lift a non-raising `prepare` hook into the `Except`-valued interface. -/
def liftPrepare {σ ε : Type} (g : List Row → σ → σ) : List Row → σ → Except ε σ :=
  fun d s => Except.ok (g d s)

/-- Lift a non-raising `finalize` hook into the `Except`-valued interface. -/
def liftFin {σ ε : Type} (g : Portfolio → σ → σ) : Portfolio → σ → Except ε σ :=
  fun p s => Except.ok (g p s)

/-- Default `Strategy.prepare`: does nothing. -/
def defaultPrepare : List Row → StratState → StratState := fun _ s => s

/-! ## Operation sequences

Helpers to quantify over arbitrary call sequences against the ledger, as the
spec's invariants do. -/

/-- Arguments of one `apply_fill` call. -/
structure FillArgs where
  symbol : String
  quantity_delta : ℤ
  price : ℚ
  fee : ℚ
deriving DecidableEq, Repr

/-- Apply a sequence of `apply_fill` calls. -/
def applyFills (p : Portfolio) (ops : List FillArgs) : Portfolio :=
  ops.foldl (fun q a => q.apply_fill a.symbol a.quantity_delta a.price a.fee) p

/-- One ledger operation: an `apply_fill` call or an `update_mark_to_market`
call. -/
inductive LedgerOp where
  | fill (args : FillArgs)
  | mark (prices : List (String × ℚ))

/-- Run an arbitrary interleaving of ledger operations. -/
noncomputable def runOps (p : Portfolio) (ops : List LedgerOp) : Portfolio :=
  ops.foldl
    (fun q op =>
      match op with
      | LedgerOp.fill a => q.apply_fill a.symbol a.quantity_delta a.price a.fee
      | LedgerOp.mark prices => q.update_mark_to_market prices) p

/-- Process one fill the way the engine couples ledger and journal: apply the
signed quantity delta to the portfolio, then hand the fill to the default
`Strategy.on_fill`. -/
def fillStep (c : Portfolio × StratState) (f : Fill) : Portfolio × StratState :=
  let qty_delta := if f.side = OrderSide.BUY then f.quantity else -f.quantity
  let p' := c.1.apply_fill f.symbol qty_delta f.price f.fee
  (p', Strategy.on_fill f p' c.2)

/-- Process a sequence of fills. -/
def fillSeq (c : Portfolio × StratState) (fs : List Fill) : Portfolio × StratState :=
  fs.foldl fillStep c

/-- The long-only admissibility check from the FIFO invariant: every fill has
a nonnegative quantity, and no SELL exceeds the quantity currently held for
its symbol at the moment it is processed. -/
def longOnlyOK (c : Portfolio × StratState) : List Fill → Bool
  | [] => true
  | f :: fs =>
    (decide (0 ≤ f.quantity) &&
      (if f.side = OrderSide.SELL
        then decide (f.quantity ≤ dictGet c.1.positions f.symbol 0)
        else true)) &&
    longOnlyOK (fillStep c f) fs

/-- Total quantity held across a list of open lots. -/
def sumLots (lots : List Lot) : ℤ := (lots.map Lot.qty).sum

/-! ## Trace-level descriptions used to state the engine claims -/

/-- The fill the broker produces for an order on a given bar (orders always
execute against the current bar's close). -/
def orderFill (cfg : SimBrokerConfig) (bar : Bar) (o : Order) : Fill :=
  SimBroker.execute cfg o bar.close bar.timestamp

/-- The signed quantity delta the engine derives from a fill:
`+quantity` for BUY, `-quantity` for SELL. -/
def fillDelta (f : Fill) : ℤ :=
  if f.side = OrderSide.BUY then f.quantity else -f.quantity

/-- Pure description of the per-bar order loop's effect on the portfolio and
the strategy state: fills are applied left to right, each `on_fill` seeing the
portfolio with that fill already applied. -/
def ordersFold {σ : Type} (cfg : SimBrokerConfig) (g : Fill → Portfolio → σ → σ)
    (bar : Bar) (ps : Portfolio × σ) (orders : List Order) : Portfolio × σ :=
  orders.foldl
    (fun ps o =>
      let fl := orderFill cfg bar o
      let p' := ps.1.apply_fill fl.symbol (fillDelta fl) fl.price fl.fee
      (p', g fl p' ps.2)) ps

/-- The event trace of the per-bar order loop: per order, in the order
returned — broker execution, ledger application, strategy notification. -/
def orderTrace (cfg : SimBrokerConfig) (bar : Bar) (orders : List Order) : List Event :=
  orders.flatMap
    (fun o =>
      let fl := orderFill cfg bar o
      [Event.execCall o bar.close,
       Event.applyFillCall fl.symbol (fillDelta fl) fl.price fl.fee,
       Event.onFillCall fl])

/-- The event trace of a run outcome (empty on an aborted run). -/
def eventsOf {σ ε : Type} : Except ε (EngSt σ) → List Event
  | Except.ok st => st.events
  | Except.error _ => []

/-- `true` iff every `on_bar` call in the trace received exactly `hist` as its
history argument. -/
def onBarHistsAre (hist : List Row) : List Event → Bool
  | [] => true
  | Event.onBarCall _ h :: t => decide (h = hist) && onBarHistsAre hist t
  | _ :: t => onBarHistsAre hist t

/-- `true` iff every `on_bar` call in the trace received a history containing
only rows with timestamp at most the current bar's timestamp. -/
def histOnlyPast : List Event → Bool
  | [] => true
  | Event.onBarCall b h :: t =>
    h.all (fun r => decide (r.datetime ≤ b.timestamp)) && histOnlyPast t
  | _ :: t => histOnlyPast t

/-- `true` iff a list of timestamps is in non-decreasing order. -/
def nonDecreasing : List ℤ → Bool
  | [] => true
  | [_] => true
  | a :: b :: t => decide (a ≤ b) && nonDecreasing (b :: t)

/-- Concrete portfolio used by the C10 witness. -/
def portfolioW : Portfolio :=
  { cash := 1000, positions := [("B", 7)], equity_curve := [1007], returns := [0] }

/-- Broker configuration with positive slippage used by the C6 counterexample. -/
def cfgSlipC6 : SimBrokerConfig := { commission_per_order := 0, slippage_bps := 100 }

/-- Unit BUY order used by the C6 counterexample and witness. -/
def orderBuyC6 : Order := { symbol := "A", side := OrderSide.BUY, quantity := 1 }

/-- Three-row feed used by the C2 counterexample: two instruments whose
timestamps interleave. -/
def rowsC2 : List Row :=
  [{ datetime := 1, symbol := "A", open_ := 10, high := 10, low := 10, close := 10 },
   { datetime := 3, symbol := "A", open_ := 11, high := 11, low := 11, close := 11 },
   { datetime := 2, symbol := "B", open_ := 20, high := 20, low := 20, close := 20 }]

/-- Single-instrument feed used by the C2 witness. -/
def rowsC2w : List Row :=
  [{ datetime := 3, symbol := "A", open_ := 1, high := 1, low := 1, close := 1 },
   { datetime := 1, symbol := "A", open_ := 2, high := 2, low := 2, close := 2 }]

/-- Portfolio with an empty equity curve used by the C4 witness. -/
def portfolioFreshW : Portfolio :=
  { cash := 100, positions := [("A", 2)], equity_curve := [], returns := [] }

/-- Portfolio with previous equity 5 used by the C4 witness. -/
def portfolioMarkedW : Portfolio :=
  { cash := 0, positions := [("A", 1)], equity_curve := [5], returns := [0] }

/-- Price mapping used by the C4 witness. -/
def pricesW : List (String × ℚ) := [("A", 3)]

/-- The coupled ledger/journal invariant: for every instrument, the open lots
sum to the ledger's position and every open lot is nonnegative. -/
def LotsInv (c : Portfolio × StratState) : Prop :=
  ∀ sym : String,
    sumLots (dictGet c.2.open_lots sym []) = dictGet c.1.positions sym 0 ∧
    ∀ l ∈ dictGet c.2.open_lots sym [], 0 ≤ l.qty

/-- Fill sequence used by the C5 witness: buy 5, sell 3, buy 2, sell 4 of "A". -/
def fillsW : List Fill :=
  [{ symbol := "A", side := OrderSide.BUY, quantity := 5, price := 10, timestamp := 0, fee := 0 },
   { symbol := "A", side := OrderSide.SELL, quantity := 3, price := 12, timestamp := 1, fee := 0 },
   { symbol := "A", side := OrderSide.BUY, quantity := 2, price := 11, timestamp := 2, fee := 0 },
   { symbol := "A", side := OrderSide.SELL, quantity := 4, price := 13, timestamp := 3, fee := 0 }]

/-- Two-bar, one-instrument feed used by the C8 counterexample. -/
def rowsC8 : List Row :=
  [{ datetime := 1, symbol := "A", open_ := 10, high := 10, low := 10, close := 10 },
   { datetime := 2, symbol := "A", open_ := 11, high := 11, low := 11, close := 11 }]

/-- A strategy that never trades, with unit state (pins the error type). -/
def noopPrepare : List Row → Unit → Except Unit Unit := fun _ s => Except.ok s

/-- `on_bar` of the no-trade strategy. -/
def noopOnBar : Bar → List Row → Portfolio → Unit → Except Unit (List Order × Unit) :=
  fun _ _ _ s => Except.ok ([], s)

/-- `on_fill` of the no-trade strategy. -/
def noopOnFill : Fill → Portfolio → Unit → Except Unit Unit := fun _ _ s => Except.ok s

/-!
# Theorems

First the supporting lemmas, then one theorem (and, where required, one
witness or counterexample) per claim.
-/

theorem dictGet_dictSet_self {α : Type} (d : List (String × α)) (k : String) (v : α) (dflt : α) :
    dictGet (dictSet d k v) k dflt = v := by
  induction d with
  | nil => simp [dictGet, dictSet]
  | cons hd t ih =>
    obtain ⟨k', v'⟩ := hd
    by_cases h : k' = k
    · simp [dictGet, dictSet, h]
    · simp [dictGet, dictSet, h, ih]

theorem dictGet_dictSet_ne {α : Type} (d : List (String × α)) (k k' : String) (v : α)
    (dflt : α) (h : k' ≠ k) : dictGet (dictSet d k v) k' dflt = dictGet d k' dflt := by
  have hk : ¬ k = k' := fun hk => h hk.symm
  induction d with
  | nil => simp [dictGet, dictSet, hk]
  | cons hd t ih =>
    obtain ⟨k₀, v₀⟩ := hd
    by_cases h₀ : k₀ = k
    · subst h₀
      simp [dictGet, dictSet, hk]
    · by_cases h₁ : k₀ = k'
      · simp [dictGet, dictSet, h₀, h₁, h]
      · simp [dictGet, dictSet, h₀, h₁, ih]

/-- C1: for every sequence of `apply_fill` calls and every call to
`update_mark_to_market`, the equity value appended to the equity curve equals
cash plus the sum over all held instruments of position quantity times the
last known price, instruments missing from the price mapping contributing 0. -/
theorem c1_mark_appends_cash_plus_positions_value (cash₀ : ℚ) (ops : List FillArgs)
    (prices : List (String × ℚ)) :
    ((applyFills (initPortfolio cash₀) ops).update_mark_to_market prices).equity_curve =
      (applyFills (initPortfolio cash₀) ops).equity_curve ++
        [(applyFills (initPortfolio cash₀) ops).cash +
          ((applyFills (initPortfolio cash₀) ops).positions.map
            (fun e => (e.2 : ℚ) * dictGet prices e.1 0)).sum] := by
  simp [Portfolio.update_mark_to_market, Portfolio.equityAt]

/-- C7: `apply_fill(symbol, quantity_delta, price, fee)` always sets the new
cash to the old cash minus `quantity_delta * price + fee` and adds
`quantity_delta` to the symbol's position; it is total — no cash-sufficiency
check is performed on any input, so cash may go negative. -/
theorem c7_apply_fill_cash_and_position (p : Portfolio) (symbol : String)
    (quantity_delta : ℤ) (price fee : ℚ) :
    (p.apply_fill symbol quantity_delta price fee).cash =
      p.cash - ((quantity_delta : ℚ) * price + fee) ∧
    dictGet (p.apply_fill symbol quantity_delta price fee).positions symbol 0 =
      dictGet p.positions symbol 0 + quantity_delta := by
  refine ⟨rfl, ?_⟩
  simp [Portfolio.apply_fill, dictGet_dictSet_self]

/-- C10: frame property of `apply_fill` — the equity curve, the return curve
and the position of every other instrument are untouched. -/
theorem c10_apply_fill_frame (p : Portfolio) (symbol : String)
    (quantity_delta : ℤ) (price fee : ℚ) :
    (p.apply_fill symbol quantity_delta price fee).equity_curve = p.equity_curve ∧
    (p.apply_fill symbol quantity_delta price fee).returns = p.returns ∧
    ∀ s : String, s ≠ symbol →
      dictGet (p.apply_fill symbol quantity_delta price fee).positions s 0 =
        dictGet p.positions s 0 := by
  refine ⟨rfl, rfl, fun s hs => ?_⟩
  simp [Portfolio.apply_fill, dictGet_dictSet_ne _ _ _ _ _ hs]

/-- Witness for C10 at a concrete input: applying a fill on "A" leaves the
position of "B" unchanged. -/
theorem c10_apply_fill_frame_witness :
    ("B" : String) ≠ "A" ∧
    dictGet (portfolioW.apply_fill "A" 3 10 1).positions "B" 0 =
      dictGet portfolioW.positions "B" 0 :=
  ⟨by decide, (c10_apply_fill_frame portfolioW "A" 3 10 1).2.2 "B" (by decide)⟩

/-- C6 counterexample: with positive `slippage_bps` (100 bps) and a negative
reference price (−100), a BUY fill executes at −101, strictly below the
reference price — the claim's "for every reference price" fails. -/
theorem c6_counterexample_negative_reference :
    0 < cfgSlipC6.slippage_bps ∧
    (SimBroker.execute cfgSlipC6 orderBuyC6 (-100) 0).price = -101 ∧
    ¬ ((-100 : ℚ) ≤ (SimBroker.execute cfgSlipC6 orderBuyC6 (-100) 0).price) := by
  refine ⟨by norm_num [cfgSlipC6], ?_, ?_⟩ <;>
    norm_num [SimBroker.execute, cfgSlipC6, orderBuyC6]

/-- C6 (amended with a nonnegative reference price, as the counterexample
forces): for positive `slippage_bps` and reference price ≥ 0, a BUY fill's
price is ≥ the reference and a SELL fill's price is ≤ the reference; and with
zero slippage and zero commission the fill price equals the reference exactly
and the fee is exactly 0. -/
theorem c6_slippage_direction (cfg : SimBrokerConfig) (o : Order) (ref : ℚ) (ts : ℤ) :
    (0 < cfg.slippage_bps → 0 ≤ ref →
      (o.side = OrderSide.BUY → ref ≤ (SimBroker.execute cfg o ref ts).price) ∧
      (o.side = OrderSide.SELL → (SimBroker.execute cfg o ref ts).price ≤ ref)) ∧
    (cfg.slippage_bps = 0 → cfg.commission_per_order = 0 →
      (SimBroker.execute cfg o ref ts).price = ref ∧
      (SimBroker.execute cfg o ref ts).fee = 0) := by
  have hslip : ∀ hb : 0 < cfg.slippage_bps, 0 ≤ ref → 0 ≤ ref * (cfg.slippage_bps / 10000) :=
    fun hb hr => mul_nonneg hr (by positivity)
  constructor
  · intro hb hr
    constructor
    · intro hside
      have := hslip hb hr
      simp only [SimBroker.execute, hside, if_pos]
      linarith
    · intro hside
      have := hslip hb hr
      have hne : ¬ (o.side = OrderSide.BUY) := by
        rw [hside]; intro h; cases h
      simp only [SimBroker.execute, hne, if_neg, if_false]
      linarith
  · intro h1 h2
    cases ho : o.side <;> simp [SimBroker.execute, h1, h2, ho]

/-- Witness for C6 at concrete inputs: with 50 bps slippage a BUY at reference
200 fills at ≥ 200; with zero slippage and commission it fills at exactly 200
with fee 0. -/
theorem c6_slippage_direction_witness :
    (0 : ℚ) < 50 ∧ (0 : ℚ) ≤ 200 ∧
    (200 : ℚ) ≤ (SimBroker.execute ⟨0, 50⟩ orderBuyC6 200 0).price ∧
    (SimBroker.execute ⟨0, 0⟩ orderBuyC6 200 0).price = 200 ∧
    (SimBroker.execute ⟨0, 0⟩ orderBuyC6 200 0).fee = 0 := by
  refine ⟨by norm_num, by norm_num, ?_, ?_, ?_⟩
  · exact ((c6_slippage_direction ⟨0, 50⟩ orderBuyC6 200 0).1 (by norm_num) (by norm_num)).1 rfl
  · exact ((c6_slippage_direction ⟨0, 0⟩ orderBuyC6 200 0).2 rfl rfl).1
  · exact ((c6_slippage_direction ⟨0, 0⟩ orderBuyC6 200 0).2 rfl rfl).2

/-- C2 counterexample: with two instruments, `iter_bars` (which follows
`sort_values(["symbol", "datetime"])` — symbol first) emits timestamps
`[1, 3, 2]`, which is not in non-decreasing timestamp order. -/
theorem c2_counterexample_two_instruments :
    (iter_bars (sortRows rowsC2)).map Bar.timestamp = [1, 3, 2] ∧
    nonDecreasing ((iter_bars (sortRows rowsC2)).map Bar.timestamp) = false := by
  constructor <;> decide

/-- C2 (amended as the counterexample forces): the bars delivered by
`iter_bars` are sorted by (instrument, timestamp) lexicographically — so
timestamps are non-decreasing within each instrument, and whenever the feed
contains a single instrument the whole delivered sequence is in non-decreasing
timestamp order; with several instruments the sequence is grouped by
instrument, not globally chronological. -/
theorem c2_bars_sorted_by_symbol_then_time (data : List Row) (s : String) :
    List.Sorted rowLe (sortRows data) ∧
    ((∀ r ∈ data, r.symbol = s) →
      List.Sorted (· ≤ ·) ((iter_bars (sortRows data)).map Bar.timestamp)) := by
  refine ⟨List.sorted_insertionSort rowLe data, fun hall => ?_⟩
  have hs : (sortRows data).Pairwise rowLe := List.sorted_insertionSort rowLe data
  have hmem : ∀ r ∈ sortRows data, r.symbol = s := fun r hr =>
    hall r ((List.mem_insertionSort rowLe).mp hr)
  have hdt : (sortRows data).Pairwise (fun a b => a.datetime ≤ b.datetime) := by
    refine List.Pairwise.imp_of_mem (fun {a b} ha hb hab => ?_) hs
    rcases hab with h | ⟨_, h⟩
    · rw [hmem a ha, hmem b hb] at h
      exact absurd h (lt_irrefl s)
    · exact h
  have hm : (iter_bars (sortRows data)).map Bar.timestamp =
      (sortRows data).map (fun r => r.datetime) := by
    simp [iter_bars, List.map_map]
  rw [hm]
  exact List.pairwise_map.mpr hdt

/-- Witness for C2 at a concrete input: a single-instrument feed is delivered
in non-decreasing timestamp order. -/
theorem c2_bars_sorted_witness :
    (∀ r ∈ rowsC2w, r.symbol = "A") ∧
    List.Sorted (· ≤ ·) ((iter_bars (sortRows rowsC2w)).map Bar.timestamp) :=
  ⟨by decide, (c2_bars_sorted_by_symbol_then_time rowsC2w "A").2 (by decide)⟩

/-- Unfolding step of `runOps`. -/
theorem runOps_cons (p : Portfolio) (op : LedgerOp) (t : List LedgerOp) :
    runOps p (op :: t) =
      runOps
        (match op with
          | LedgerOp.fill a => p.apply_fill a.symbol a.quantity_delta a.price a.fee
          | LedgerOp.mark prices => p.update_mark_to_market prices) t := rfl

/-- Both ledger operations preserve `returns.length = equity_curve.length`. -/
theorem runOps_len_eq : ∀ (ops : List LedgerOp) (p : Portfolio),
    p.returns.length = p.equity_curve.length →
    (runOps p ops).returns.length = (runOps p ops).equity_curve.length := by
  intro ops
  induction ops with
  | nil => intro p h; exact h
  | cons op t ih =>
    intro p h
    rw [runOps_cons]
    cases op with
    | fill a => exact ih _ (by simpa [Portfolio.apply_fill] using h)
    | mark prices => exact ih _ (by simp [Portfolio.update_mark_to_market, h])

/-- C4: for every interleaving of `apply_fill` and `update_mark_to_market`
calls the returns list and the equity curve have the same length; the first
appended return is 0.0 regardless of (initial) cash; and every subsequent
appended return is `log(equity / previous_equity)`, with 0.0 appended instead
when the previous equity is 0. -/
theorem c4_return_curve_shape (cash₀ : ℚ) (ops : List LedgerOp) :
    (runOps (initPortfolio cash₀) ops).returns.length =
      (runOps (initPortfolio cash₀) ops).equity_curve.length ∧
    (∀ (p : Portfolio) (prices : List (String × ℚ)), p.equity_curve = [] →
      (p.update_mark_to_market prices).returns = p.returns ++ [0]) ∧
    (∀ (p : Portfolio) (prices : List (String × ℚ)) (prev : ℚ),
      p.equity_curve.getLast? = some prev →
      (p.update_mark_to_market prices).returns = p.returns ++
        [if prev = 0 then 0
         else Real.log ((p.equityAt prices : ℝ) / (prev : ℝ))]) := by
  refine ⟨runOps_len_eq ops (initPortfolio cash₀) rfl, ?_, ?_⟩
  · intro p prices he
    by_cases h0 : p.equityAt prices = 0
    · simp [Portfolio.update_mark_to_market, he, h0]
    · simp only [Portfolio.update_mark_to_market, he, List.getLast?_nil]
      rw [if_neg h0, div_self (by exact_mod_cast h0), Real.log_one]
  · intro p prices prev hp
    simp [Portfolio.update_mark_to_market, hp]

/-- Witness for C4 at concrete inputs: the first appended return is 0, and a
subsequent appended return is the log-ratio against the previous equity. -/
theorem c4_return_curve_shape_witness :
    portfolioFreshW.equity_curve = [] ∧
    (portfolioFreshW.update_mark_to_market pricesW).returns =
      portfolioFreshW.returns ++ [0] ∧
    portfolioMarkedW.equity_curve.getLast? = some 5 ∧
    (portfolioMarkedW.update_mark_to_market pricesW).returns =
      portfolioMarkedW.returns ++
        [if (5 : ℚ) = 0 then 0
         else Real.log ((portfolioMarkedW.equityAt pricesW : ℝ) / ((5 : ℚ) : ℝ))] :=
  ⟨rfl, (c4_return_curve_shape 0 []).2.1 portfolioFreshW pricesW rfl, rfl,
    (c4_return_curve_shape 0 []).2.2 portfolioMarkedW pricesW 5 rfl⟩

theorem sumLots_nil : sumLots [] = 0 := rfl

theorem sumLots_cons (l : Lot) (ls : List Lot) : sumLots (l :: ls) = l.qty + sumLots ls := by
  simp [sumLots]

theorem sumLots_append (a b : List Lot) : sumLots (a ++ b) = sumLots a + sumLots b := by
  simp [sumLots]

/-- The matching loop does nothing when the remaining quantity is not
positive, whatever the fuel. -/
theorem sellLoop_nonpos (sym : String) (fp : ℚ) (ts : ℤ) (fuel : ℕ) (q : ℤ)
    (lots : List Lot) (acc : List TradeRecord) (hq : ¬ 0 < q) :
    sellLoop sym fp ts fuel q lots acc = (lots, acc) := by
  cases fuel with
  | zero => rfl
  | succ n => simp [sellLoop, hq]

/-- Core accounting of the SELL matching loop: with enough fuel, nonnegative
lots, and a quantity bounded by the open interest, the loop removes exactly
the sold quantity from the open lots and keeps all lots nonnegative. -/
theorem sellLoop_sum (sym : String) (fp : ℚ) (ts : ℤ) :
    ∀ (lots : List Lot) (fuel : ℕ) (q : ℤ) (acc : List TradeRecord),
      lots.length + 1 ≤ fuel → 0 ≤ q → q ≤ sumLots lots →
      (∀ l ∈ lots, 0 ≤ l.qty) →
      sumLots (sellLoop sym fp ts fuel q lots acc).1 = sumLots lots - q ∧
      ∀ l ∈ (sellLoop sym fp ts fuel q lots acc).1, 0 ≤ l.qty := by
  intro lots
  induction lots with
  | nil =>
    intro fuel q acc _ hq0 hqle _
    have hq : ¬ 0 < q := by simp [sumLots] at hqle; omega
    rw [sellLoop_nonpos _ _ _ _ _ _ _ hq]
    have : q = 0 := by simp [sumLots] at hqle; omega
    subst this
    simp [sumLots]
  | cons lot rest ih =>
    intro fuel q acc hfuel hq0 hqle hnn
    obtain ⟨n, rfl⟩ : ∃ n, fuel = n + 1 := ⟨fuel - 1, by omega⟩
    by_cases hq : 0 < q
    · have hmin1 : min q lot.qty ≤ q := min_le_left _ _
      have hmin2 : min q lot.qty ≤ lot.qty := min_le_right _ _
      simp only [sellLoop, if_pos hq]
      by_cases hpop : lot.qty - min q lot.qty = 0
      · rw [if_pos hpop]
        have htake : min q lot.qty = lot.qty := by omega
        have hfuel' : rest.length + 1 ≤ n := by
          simp [List.length_cons] at hfuel; omega
        have hq0' : 0 ≤ q - min q lot.qty := by omega
        have hqle' : q - min q lot.qty ≤ sumLots rest := by
          rw [sumLots_cons] at hqle; omega
        obtain ⟨h₁, h₂⟩ := ih n (q - min q lot.qty) (acc ++ [_]) hfuel' hq0' hqle'
          (fun l hl => hnn l (List.mem_cons_of_mem _ hl))
        refine ⟨?_, h₂⟩
        rw [h₁, sumLots_cons]
        omega
      · rw [if_neg hpop]
        have htake : min q lot.qty = q := by
          rcases min_choice q lot.qty with h | h
          · exact h
          · omega
        have hzero : ¬ 0 < q - min q lot.qty := by omega
        rw [sellLoop_nonpos _ _ _ _ _ _ _ hzero]
        constructor
        · rw [sumLots_cons, sumLots_cons]
          simp only []
          omega
        · intro l hl
          rcases List.mem_cons.mp hl with h | h
          · subst h
            simp only []
            omega
          · exact hnn l (List.mem_cons_of_mem _ h)
    · rw [sellLoop_nonpos _ _ _ _ _ _ _ hq]
      have : q = 0 := by omega
      subst this
      exact ⟨by simp, hnn⟩

/-- One admissible fill (nonnegative quantity, SELL bounded by the current
position) preserves the invariant. -/
theorem fillStep_inv (c : Portfolio × StratState) (f : Fill) (hinv : LotsInv c)
    (hq : 0 ≤ f.quantity)
    (hsell : f.side = OrderSide.SELL → f.quantity ≤ dictGet c.1.positions f.symbol 0) :
    LotsInv (fillStep c f) := by
  intro sym
  obtain ⟨hsum, hnn⟩ := hinv sym
  obtain ⟨hsumf, hnnf⟩ := hinv f.symbol
  by_cases hside : f.side = OrderSide.BUY
  · by_cases hs : sym = f.symbol
    · subst hs
      have hlots : dictGet (fillStep c f).2.open_lots f.symbol [] =
          dictGet c.2.open_lots f.symbol [] ++
            [{ qty := f.quantity, price := f.price, ts := f.timestamp }] := by
        simp [fillStep, Strategy.on_fill, hside, dictGet_dictSet_self]
      have hpos : dictGet (fillStep c f).1.positions f.symbol 0 =
          dictGet c.1.positions f.symbol 0 + f.quantity := by
        simp [fillStep, Portfolio.apply_fill, hside, dictGet_dictSet_self]
      rw [hlots, hpos, sumLots_append, sumLots_cons, sumLots_nil, hsumf]
      refine ⟨by simp, fun l hl => ?_⟩
      rcases List.mem_append.mp hl with h | h
      · exact hnnf l h
      · rcases List.mem_singleton.mp h with rfl
        exact hq
    · have hlots : dictGet (fillStep c f).2.open_lots sym [] =
          dictGet c.2.open_lots sym [] := by
        simp [fillStep, Strategy.on_fill, hside, dictGet_dictSet_ne _ _ _ _ _ hs]
      have hpos : dictGet (fillStep c f).1.positions sym 0 =
          dictGet c.1.positions sym 0 := by
        simp [fillStep, Portfolio.apply_fill, dictGet_dictSet_ne _ _ _ _ _ hs]
      rw [hlots, hpos]
      exact ⟨hsum, hnn⟩
  · have hS : f.side = OrderSide.SELL := by
      cases hfs : f.side
      · exact absurd hfs hside
      · rfl
    have hbound : f.quantity ≤ sumLots (dictGet c.2.open_lots f.symbol []) := by
      rw [hsumf]; exact hsell hS
    obtain ⟨hres, hresnn⟩ := sellLoop_sum f.symbol f.price f.timestamp
      (dictGet c.2.open_lots f.symbol []) ((dictGet c.2.open_lots f.symbol []).length + 1)
      f.quantity c.2.trade_log (le_refl _) hq hbound hnnf
    by_cases hs : sym = f.symbol
    · subst hs
      have hlots : dictGet (fillStep c f).2.open_lots f.symbol [] =
          (sellFIFO f.symbol f.price f.timestamp f.quantity
            (dictGet c.2.open_lots f.symbol []) c.2.trade_log).1 := by
        simp [fillStep, Strategy.on_fill, hside, dictGet_dictSet_self]
      have hpos : dictGet (fillStep c f).1.positions f.symbol 0 =
          dictGet c.1.positions f.symbol 0 - f.quantity := by
        simp only [fillStep, Portfolio.apply_fill, hside, if_false]
        rw [dictGet_dictSet_self]
        omega
      rw [hlots, hpos]
      refine ⟨?_, fun l hl => hresnn l hl⟩
      rw [show (sellFIFO f.symbol f.price f.timestamp f.quantity
            (dictGet c.2.open_lots f.symbol []) c.2.trade_log) =
          sellLoop f.symbol f.price f.timestamp
            ((dictGet c.2.open_lots f.symbol []).length + 1) f.quantity
            (dictGet c.2.open_lots f.symbol []) c.2.trade_log from rfl, hres, hsumf]
    · have hlots : dictGet (fillStep c f).2.open_lots sym [] =
          dictGet c.2.open_lots sym [] := by
        simp [fillStep, Strategy.on_fill, hside, dictGet_dictSet_ne _ _ _ _ _ hs]
      have hpos : dictGet (fillStep c f).1.positions sym 0 =
          dictGet c.1.positions sym 0 := by
        simp [fillStep, Portfolio.apply_fill, dictGet_dictSet_ne _ _ _ _ _ hs]
      rw [hlots, hpos]
      exact ⟨hsum, hnn⟩

/-- Any admissible (long-only) fill sequence preserves the invariant. -/
theorem fillSeq_inv : ∀ (fills : List Fill) (c : Portfolio × StratState),
    LotsInv c → longOnlyOK c fills = true → LotsInv (fillSeq c fills) := by
  intro fills
  induction fills with
  | nil => intro c h _; exact h
  | cons f fs ih =>
    intro c hinv hok
    rw [longOnlyOK] at hok
    simp only [Bool.and_eq_true, decide_eq_true_eq] at hok
    obtain ⟨⟨hq, hifsell⟩, hrest⟩ := hok
    have hsell : f.side = OrderSide.SELL →
        f.quantity ≤ dictGet c.1.positions f.symbol 0 := by
      intro hS
      rw [if_pos hS] at hifsell
      exact of_decide_eq_true hifsell
    exact ih _ (fillStep_inv c f hinv hq hsell) hrest

/-- C5: FIFO matching invariant — starting from a fresh ledger and journal,
after any long-only sequence of fills (nonnegative quantities, no SELL
exceeding the quantity currently held), the total quantity in the strategy's
open lots equals the portfolio's position, for every instrument. A BUY appends
one new lot and a SELL consumes the oldest lots first (see
`Strategy.on_fill` / `sellLoop`). -/
theorem c5_fifo_lot_invariant (cash₀ : ℚ) (fills : List Fill)
    (h : longOnlyOK (initPortfolio cash₀, initStratState) fills = true) (sym : String) :
    sumLots (dictGet (fillSeq (initPortfolio cash₀, initStratState) fills).2.open_lots sym []) =
      dictGet (fillSeq (initPortfolio cash₀, initStratState) fills).1.positions sym 0 := by
  have hinit : LotsInv (initPortfolio cash₀, initStratState) := by
    intro s
    exact ⟨rfl, fun l hl => absurd hl (List.not_mem_nil l)⟩
  exact (fillSeq_inv fills _ hinit h sym).1

/-- Witness for C5 at a concrete admissible fill sequence. -/
theorem c5_fifo_lot_invariant_witness :
    longOnlyOK (initPortfolio 1000, initStratState) fillsW = true ∧
    sumLots (dictGet (fillSeq (initPortfolio 1000, initStratState) fillsW).2.open_lots "A" []) =
      dictGet (fillSeq (initPortfolio 1000, initStratState) fillsW).1.positions "A" 0 :=
  ⟨by decide, c5_fifo_lot_invariant 1000 fillsW (by decide) "A"⟩

/-- The order loop with a non-raising `on_fill` hook never aborts, and its
effect is exactly the pure fold `ordersFold` together with the trace
`orderTrace`; the fill counter grows by the number of orders and the
`last_prices` dict is untouched. -/
theorem foldlM_processOrder_lift {σ ε : Type} (cfg : SimBrokerConfig)
    (g : Fill → Portfolio → σ → σ) (bar : Bar) :
    ∀ (orders : List Order) (st : EngSt σ),
      List.foldlM (processOrder cfg (@liftOnFill σ ε g) bar) st orders =
        Except.ok
          { portfolio := (ordersFold cfg g bar (st.portfolio, st.strat) orders).1
            lastPrices := st.lastPrices
            trades := st.trades + orders.length
            strat := (ordersFold cfg g bar (st.portfolio, st.strat) orders).2
            events := st.events ++ orderTrace cfg bar orders } := by
  intro orders
  induction orders with
  | nil =>
    intro st
    simp only [List.foldlM_nil, ordersFold, orderTrace, List.foldl_nil, List.flatMap_nil,
      List.append_nil, List.length_nil, Nat.add_zero]
    rfl
  | cons o os ih =>
    intro st
    rw [List.foldlM_cons]
    simp only [processOrder, liftOnFill]
    rw [show ∀ (y : EngSt σ) (k : EngSt σ → Except ε (EngSt σ)), (Except.ok y >>= k) = k y
      from fun _ _ => rfl]
    rw [ih]
    simp [ordersFold, orderTrace, orderFill, fillDelta, List.append_assoc,
      Nat.add_comm, Nat.add_assoc, Nat.add_left_comm]

/-- Full characterization of the per-bar step with non-raising hooks: record
the close first, then call `on_bar` (on the pre-fill portfolio), then run the
order loop, then mark to market once with the full `last_prices` dict. -/
theorem processBar_lift {σ ε : Type} (cfg : SimBrokerConfig)
    (f : Bar → List Row → Portfolio → σ → List Order × σ)
    (g : Fill → Portfolio → σ → σ) (hist : List Row) (st : EngSt σ) (bar : Bar) :
    processBar cfg (@liftOnBar σ ε f) (@liftOnFill σ ε g) hist st bar =
      Except.ok
        { portfolio :=
            (ordersFold cfg g bar (st.portfolio, (f bar hist st.portfolio st.strat).2)
              (f bar hist st.portfolio st.strat).1).1.update_mark_to_market
                (dictSet st.lastPrices bar.symbol bar.close)
          lastPrices := dictSet st.lastPrices bar.symbol bar.close
          trades := st.trades + (f bar hist st.portfolio st.strat).1.length
          strat :=
            (ordersFold cfg g bar (st.portfolio, (f bar hist st.portfolio st.strat).2)
              (f bar hist st.portfolio st.strat).1).2
          events := st.events ++
            [Event.setPrice bar.symbol bar.close, Event.onBarCall bar hist] ++
            orderTrace cfg bar (f bar hist st.portfolio st.strat).1 ++
            [Event.markCall (dictSet st.lastPrices bar.symbol bar.close)] } := by
  rcases hob : f bar hist st.portfolio st.strat with ⟨orders, s₁⟩
  simp only [processBar, liftOnBar]
  rw [show ({ st with
        lastPrices := dictSet st.lastPrices bar.symbol bar.close
        events := st.events ++ [Event.setPrice bar.symbol bar.close] } : EngSt σ).portfolio =
      st.portfolio from rfl]
  rw [hob]
  simp only []
  rw [foldlM_processOrder_lift]
  simp [List.append_assoc]

/-- C3: per-bar processing order — the bar's close is recorded (and enters
`last_prices`) before `strategy.on_bar` is invoked on the pre-fill portfolio;
each returned order, in the order returned, is executed by the broker, applied
to the portfolio with delta `+quantity` for BUY / `-quantity` for SELL,
counted, and reported to `strategy.on_fill`; and `update_mark_to_market` runs
exactly once per bar, last, after all fills, on the full price dict. -/
theorem c3_per_bar_step_order {σ ε : Type} (cfg : SimBrokerConfig)
    (f : Bar → List Row → Portfolio → σ → List Order × σ)
    (g : Fill → Portfolio → σ → σ) (hist : List Row) (st : EngSt σ) (bar : Bar) :
    processBar cfg (@liftOnBar σ ε f) (@liftOnFill σ ε g) hist st bar =
      Except.ok
        { portfolio :=
            (ordersFold cfg g bar (st.portfolio, (f bar hist st.portfolio st.strat).2)
              (f bar hist st.portfolio st.strat).1).1.update_mark_to_market
                (dictSet st.lastPrices bar.symbol bar.close)
          lastPrices := dictSet st.lastPrices bar.symbol bar.close
          trades := st.trades + (f bar hist st.portfolio st.strat).1.length
          strat :=
            (ordersFold cfg g bar (st.portfolio, (f bar hist st.portfolio st.strat).2)
              (f bar hist st.portfolio st.strat).1).2
          events := st.events ++
            [Event.setPrice bar.symbol bar.close, Event.onBarCall bar hist] ++
            orderTrace cfg bar (f bar hist st.portfolio st.strat).1 ++
            [Event.markCall (dictSet st.lastPrices bar.symbol bar.close)] } :=
  processBar_lift cfg f g hist st bar

theorem onBarHistsAre_append (hist : List Row) (a b : List Event) :
    onBarHistsAre hist (a ++ b) = (onBarHistsAre hist a && onBarHistsAre hist b) := by
  induction a with
  | nil => simp [onBarHistsAre]
  | cons e t ih => cases e <;> simp [onBarHistsAre, ih, Bool.and_assoc]

theorem onBarHistsAre_orderTrace (hist : List Row) (cfg : SimBrokerConfig) (bar : Bar) :
    ∀ orders : List Order, onBarHistsAre hist (orderTrace cfg bar orders) = true := by
  intro orders
  induction orders with
  | nil => rfl
  | cons o os ih => simp [orderTrace, onBarHistsAre] at ih ⊢; exact ih

/-- Through the whole bar loop with non-raising hooks, every `on_bar` call
receives exactly the `hist` argument the engine fixed before the loop. -/
theorem runLoop_onBarHists {σ ε : Type} (cfg : SimBrokerConfig)
    (f : Bar → List Row → Portfolio → σ → List Order × σ)
    (g : Fill → Portfolio → σ → σ) (hist : List Row) :
    ∀ (bars : List Bar) (st : EngSt σ), onBarHistsAre hist st.events = true →
      ∃ st' : EngSt σ,
        List.foldlM (processBar cfg (@liftOnBar σ ε f) (@liftOnFill σ ε g) hist) st bars =
          Except.ok st' ∧ onBarHistsAre hist st'.events = true := by
  intro bars
  induction bars with
  | nil => intro st h; exact ⟨st, rfl, h⟩
  | cons b bs ih =>
    intro st h
    rw [List.foldlM_cons, processBar_lift]
    rw [show ∀ (y : EngSt σ) (k : EngSt σ → Except ε (EngSt σ)), (Except.ok y >>= k) = k y
      from fun _ _ => rfl]
    refine ih _ ?_
    simp [onBarHistsAre_append, onBarHistsAre, h, onBarHistsAre_orderTrace]

/-- C8 (amended as the counterexample forces): on every bar, the engine passes
`strategy.on_bar` the feed's full history snapshot — computed once, before the
loop — not a truncated history-so-far; that snapshot may contain rows with
timestamps later than the current bar, and the framework does not restrict it
(lookahead avoidance is the strategy implementer's responsibility). -/
theorem c8_engine_passes_full_history {σ ε : Type} (cfg : SimBrokerConfig)
    (pre : List Row → σ → σ)
    (f : Bar → List Row → Portfolio → σ → List Order × σ)
    (g : Fill → Portfolio → σ → σ) (data : List Row) (p₀ : Portfolio) (s₀ : σ) :
    onBarHistsAre (history (sortRows data))
      (eventsOf (runSt cfg (@liftPrepare σ ε pre) (@liftOnBar σ ε f) (@liftOnFill σ ε g)
        data p₀ s₀)) = true := by
  obtain ⟨st', heq, hh⟩ := @runLoop_onBarHists σ ε cfg f g (history (sortRows data))
    (iter_bars (sortRows data))
    { portfolio := p₀, lastPrices := [], trades := 0, strat := pre (sortRows data) s₀,
      events := [] } rfl
  simp only [runSt, liftPrepare, history] at heq ⊢
  rw [heq]
  exact hh

/-- C8 counterexample: on the feed `rowsC8`, already on its first bar
(timestamp 1) the engine hands `on_bar` a history containing the timestamp-2
row — the history argument is not limited to data with timestamp ≤ the
current bar. -/
theorem c8_counterexample_history_has_future_rows :
    histOnlyPast (eventsOf (runSt { commission_per_order := 0, slippage_bps := 0 }
      noopPrepare noopOnBar noopOnFill rowsC8 (initPortfolio 1000) ())) = false := by
  decide

/-- C9: running the engine on an empty bar stream returns a `BacktestResult`
with empty equity and return curves and fill count 0, and aborts nowhere —
for any `on_bar` hook (it is never invoked), with the default strategy's
`prepare`, `on_fill` and `finalize`; the default `finalize` over the empty
trade log and return series completes and produces the all-zero summary. -/
theorem c9_empty_stream_empty_result {ε : Type} (cfg : SimBrokerConfig) (cash₀ : ℚ)
    (onBar : Bar → List Row → Portfolio → StratState → Except ε (List Order × StratState)) :
    run cfg (liftPrepare defaultPrepare) onBar (liftOnFill Strategy.on_fill)
        (liftFin Strategy.finalize) [] (initPortfolio cash₀) initStratState =
      Except.ok { equity := [], returns := [], trades := 0 } ∧
    (Strategy.finalize (initPortfolio cash₀) initStratState).summary =
      some { num_trades := 0, win_rate := 0, avg_win := 0, avg_loss := 0,
             avg_holding_days := 0 } := by
  exact ⟨rfl, rfl⟩

end Backtest

